import Mathlib

/-!
Verification of the core command-line parsing library (mantou): a shallow
embedding, in Lean 4, of the data model and the algorithms of
`src/lib/command.ts` (with `src/lib/argument.ts` and the Option class), and
theorems about them.

Modelling conventions, used throughout:
* A JavaScript string is modelled as a `List Char` (named `Str`); `chars`
  turns a Lean string literal into one.
* A JavaScript value stored for an option is a `JValue`: `undef` and `null`
  model `undefined` and `null` (the JS test `v == null` is `nullish`),
  `bool`/`str`/`list` model the values the library actually stores.
* A JS object used as a map is an association list (`lookupA` / `setA`:
  insertion order is kept, as JS objects keep it).
* Callback functions (`parseArg`) are modelled as Lean functions; error
  objects are modelled by their `exitCode` and stable `code` string (the
  human-readable message text is not modelled).
* Loops that mutate an index/array (`parseOptions`) are written as fueled
  recursion; the fuel `tokensMeasure args` strictly exceeds the number of
  iterations the JS loop can make on `args`, because every iteration either
  consumes a token or shortens the front token by one character.
-/

namespace Mantou

/-- JavaScript strings, modelled as lists of characters. -/
abbrev Str := List Char

/-- A Lean string literal as a `Str`. -/
def chars (s : String) : Str := s.data

/-- JavaScript values as the library stores them for options and arguments. -/
inductive JValue where
  | undef
  | null
  | bool (b : Bool)
  | str (s : Str)
  | list (xs : List JValue)

/-- Boolean equality on `JValue` (structural; JValue is a nested inductive,
so decidable equality is derived from this by hand). -/
def JValue.beq : JValue → JValue → Bool
  | .undef, .undef => true
  | .null, .null => true
  | .bool a, .bool b => a == b
  | .str a, .str b => a == b
  | .list as, .list bs => beqL as bs
  | _, _ => false
where beqL : List JValue → List JValue → Bool
  | [], [] => true
  | x :: xs, y :: ys => x.beq y && beqL xs ys
  | _, _ => false

theorem JValue.beq_iff_eq : ∀ a b : JValue, JValue.beq a b = true ↔ a = b := by
  apply JValue.beq.induct (fun as bs => JValue.beq.beqL as bs = true ↔ as = bs)
    (fun a b => JValue.beq a b = true ↔ a = b)
  case case1 => simp [JValue.beq]
  case case2 => simp [JValue.beq]
  case case3 => intro a b; simp [JValue.beq]
  case case4 => intro a b; simp [JValue.beq]
  case case5 => intro as bs ih; simpa [JValue.beq] using ih
  case case6 =>
    intro t x h1 h2 h3 h4 h5
    cases t <;> cases x <;> simp_all [JValue.beq]
  case case7 => simp [JValue.beq.beqL]
  case case8 =>
    intro x xs y ys ih1 ih2
    simp [JValue.beq.beqL, ih1, ih2]
  case case9 =>
    intro t x h1 h2
    match t, x with
    | [], [] => exact (h1 rfl rfl).elim
    | [], _ :: _ => simp [JValue.beq.beqL]
    | _ :: _, [] => simp [JValue.beq.beqL]
    | a :: as, b :: bs => exact (h2 a as b bs rfl rfl).elim

instance : DecidableEq JValue := fun a b => decidable_of_iff _ (JValue.beq_iff_eq a b)

/-- The JS test `v == null`, true for both `undefined` and `null`. -/
def nullish : JValue → Bool
  | .undef => true
  | .null => true
  | _ => false

/-- Lookup in a JS object used as a map (association list, first match). -/
def lookupA {β : Type} (l : List (Str × β)) (k : Str) : Option β :=
  (l.find? (fun p => decide (p.1 = k))).map (fun p => p.2)

/-- Assignment in a JS object used as a map: overwrite in place, or append. -/
def setA {β : Type} (l : List (Str × β)) (k : Str) (v : β) : List (Str × β) :=
  if (l.find? (fun p => decide (p.1 = k))).isSome then
    l.map (fun p => if p.1 = k then (k, v) else p)
  else
    l ++ [(k, v)]

/-- `str.replace(/^pre/, "")`: drop `pre` when it is a prefix, else unchanged. -/
def dropPre (pre s : Str) : Str :=
  if s.take pre.length = pre then s.drop pre.length else s

/-- `String.prototype.split` on a single separator character. -/
def splitOnChar (c : Char) : List Char → List (List Char)
  | [] => [[]]
  | x :: xs =>
    match splitOnChar c xs with
    | [] => [[]]
    | h :: t => if x = c then [] :: h :: t else (x :: h) :: t

/-- `camelcase` of command.ts: split on `-`, keep the first word, capitalise
the first letter of each later word. (On an empty later word JS would crash
reading `word[0]`; the model leaves the accumulator unchanged there.) -/
def camelcase (s : Str) : Str :=
  match splitOnChar '-' s with
  | [] => []
  | w :: ws => ws.foldl (fun acc word => acc ++ (word.take 1).map Char.toUpper ++ word.drop 1) w

/-- The `Option` class of command.ts: flag shape and configuration.
`parseArg` (the `argParser` callback) is modelled as a Lean function; a
callback that may throw is out of scope for the claims settled here. -/
structure Opt where
  short : Option Str := none
  long : Option Str := none
  required : Bool := false
  optional : Bool := false
  variadic : Bool := false
  negate : Bool := false
  mandatory : Bool := false
  defaultValue : JValue := .undef
  presetArg : JValue := .undef
  envVar : Option Str := none
  parseArg : Option (JValue → JValue → JValue) := none
  conflictsWith : List Str := []

/-- `Option.prototype.is`: does `arg` equal the short or the long flag. -/
def Opt.is (o : Opt) (arg : Str) : Bool :=
  o.short = some arg || o.long = some arg

/-- `Option.prototype.name`: long flag without `--`, else short without `-`. -/
def Opt.name (o : Opt) : Str :=
  match o.long with
  | some l => dropPre (chars "--") l
  | none => dropPre (chars "-") (o.short.getD [])

/-- `Option.prototype.attributeName`: `name()` without a leading `no-`, camel-cased. -/
def Opt.attributeName (o : Opt) : Str :=
  camelcase (dropPre (chars "no-") o.name)

/-- `Option.prototype.isBoolean`: neither takes a value nor negates. -/
def Opt.isBoolean (o : Opt) : Bool :=
  !o.required && !o.optional && !o.negate

/-- `Option.prototype._concatValue(value, previous)` for variadic options.
(JS compares `previous === defaultValue` by object identity, which has no
shallow counterpart: for a list default the identity holds on the very
first accumulation — the stored previous is still the default array object
itself — and never afterwards for a freshly accumulated array. This model
compares only non-list defaults, structurally, so over a list default it
diverges from JS on that first accumulation; no theorem below depends on
the output of this function.) -/
def Opt.concatValue (o : Opt) (value previous : JValue) : JValue :=
  let prevIsDefault : Bool :=
    match o.defaultValue with
    | .list _ => false
    | d => decide (previous = d)
  let prevIsArray : Bool := match previous with | .list _ => true | _ => false
  if prevIsDefault || !prevIsArray then
    .list [value]
  else
    match previous with
    | .list xs => .list (xs ++ [value])
    | _ => .list [value]

/-- An `option:` / `optionEnv:` event as `parseOptions` emits it: the
option's `name()` and the raw value the emit carries (`undef` when the emit
has no argument, `null` for an optional flag used without a value). -/
structure OptEvent where
  name : Str
  value : JValue
  deriving DecidableEq

/-- Where `dest` points inside `parseOptions`: the `operands` array or the
`unknown` array. -/
inductive Dest where
  | operands
  | unknown
  deriving DecidableEq

/-- The observable outcome of `parseOptions`: the returned
`{ operands, unknown }` plus the `option:` events emitted along the way. -/
structure PState where
  operands : List Str
  unknown : List Str
  events : List OptEvent
  deriving DecidableEq

/-- The slice of a `Command` that `parseOptions` consults: its options, the
names and aliases of its subcommands, the help/default command names, and
the behavioural flags. -/
structure Cmd where
  options : List Opt
  subcommands : List (Str × List Str) := []
  helpCommandName : Option Str := none
  defaultCommandName : Option Str := none
  enablePositionalOptions : Bool := false
  passThroughOptions : Bool := false
  combineFlagAndOptionalValue : Bool := true

/-- `Command.prototype._findOption`. -/
def Cmd.findOption (c : Cmd) (arg : Str) : Option Opt :=
  c.options.find? (fun o => o.is arg)

/-- `Command.#findCommand`: by name or alias; a falsy (empty) name finds nothing. -/
def Cmd.findCommand (c : Cmd) (name : Str) : Option (Str × List Str) :=
  if name.isEmpty then none
  else c.subcommands.find? (fun sc => decide (sc.1 = name) || decide (name ∈ sc.2))

/-- `maybeOption` of `parseOptions`: length over 1 and starts with `-`. -/
def maybeOption : Str → Bool
  | c :: _ :: _ => c = '-'
  | _ => false

/-- Fuel bound for the `parseOptions` loop: each iteration removes a token
or replaces the front token by a one-character-shorter one, so the sum of
`length + 1` over the tokens bounds the number of iterations. -/
def tokensMeasure : List Str → Nat
  | [] => 0
  | t :: ts => t.length + 1 + tokensMeasure ts

/-- What one iteration of the `parseOptions` loop decides to do: stop and
return the result (`done`), throw (`fail`), or continue the loop with the
updated `args`/`operands`/`unknown`/events/`dest`/`activeVariadicOption`. -/
inductive StepRes where
  | done (ps : PState)
  | fail (code : String)
  | cont (args operands unknown : List Str) (events : List OptEvent) (dest : Dest)
      (avo : Option Opt)

/-- One iteration of the `while (args.length)` loop of
`Command.prototype.parseOptions` (command.ts lines 1691-1801), transcribed
branch for branch, for the shifted front token `arg` and remaining `rest`. -/
def parseStep (c : Cmd) (arg : Str) (rest operands unknown : List Str)
    (events : List OptEvent) (dest : Dest) (avo : Option Opt) : StepRes :=
  -- literal `--`
  if arg = chars "--" then
    match dest with
    | .unknown => .done ⟨operands, (unknown ++ [arg]) ++ rest, events⟩
    | .operands => .done ⟨operands ++ rest, unknown, events⟩
  else
    let mainBody : Unit → StepRes := fun _ =>
      -- from here on the JS loop has set activeVariadicOption = null
      let comboCheck : Unit → StepRes := fun _ =>
        let longCheck : Unit → StepRes := fun _ =>
          let fallback : Unit → StepRes := fun _ =>
            -- not a recognised option: may switch dest to unknown
            let dest2 := if maybeOption arg then Dest.unknown else dest
            let tail : Unit → StepRes := fun _ =>
              if c.passThroughOptions then
                match dest2 with
                | .operands => .done ⟨(operands ++ [arg]) ++ rest, unknown, events⟩
                | .unknown => .done ⟨operands, (unknown ++ [arg]) ++ rest, events⟩
              else
                match dest2 with
                | .operands => .cont rest (operands ++ [arg]) unknown events dest2 none
                | .unknown => .cont rest operands (unknown ++ [arg]) events dest2 none
            if (c.enablePositionalOptions || c.passThroughOptions)
                && operands.isEmpty && unknown.isEmpty then
              if (c.findCommand arg).isSome then
                .done ⟨operands ++ [arg], unknown ++ rest, events⟩
              else if c.helpCommandName = some arg then
                .done ⟨(operands ++ [arg]) ++ rest, unknown, events⟩
              else if c.defaultCommandName.isSome then
                .done ⟨operands, (unknown ++ [arg]) ++ rest, events⟩
              else tail ()
            else tail ()
          -- known long flag with value, like --foo=bar  (regex ^--[^=]+=)
          match arg with
          | b0 :: b1 :: cs =>
            if b0 = '-' ∧ b1 = '-' then
              let pre := cs.takeWhile (fun ch => ch ≠ '=')
              if !pre.isEmpty && pre.length < cs.length then
                match c.findOption ('-' :: '-' :: pre) with
                | some o =>
                  if o.required || o.optional then
                    .cont rest operands unknown
                      (events ++ [⟨o.name, .str (cs.drop (pre.length + 1))⟩]) dest none
                  else fallback ()
                | none => fallback ()
              else fallback ()
            else fallback ()
          | _ => fallback ()
        -- combo options following single dash, eat first one if known
        -- (arg.length > 2 && arg[0] === '-' && arg[1] !== '-')
        match arg with
        | a0 :: a1 :: a2 :: more =>
          if a0 = '-' then
            if a1 ≠ '-' then
              match c.findOption ['-', a1] with
              | some o =>
                if o.required || (o.optional && c.combineFlagAndOptionalValue) then
                  .cont rest operands unknown
                    (events ++ [⟨o.name, .str (a2 :: more)⟩]) dest none
                else
                  .cont (('-' :: a2 :: more) :: rest) operands unknown
                    (events ++ [⟨o.name, .undef⟩]) dest none
              | none => longCheck ()
            else longCheck ()
          else longCheck ()
        | _ => longCheck ()
      -- exact match against a declared short or long flag
      if maybeOption arg then
        match c.findOption arg with
        | some o =>
          let navo := if o.variadic then some o else none
          if o.required then
            match rest with
            | [] => .fail "commander.optionMissingArgument"
            | v :: rest2 =>
              .cont rest2 operands unknown (events ++ [⟨o.name, .str v⟩]) dest navo
          else if o.optional then
            match rest with
            | v :: rest2 =>
              if maybeOption v then
                .cont rest operands unknown (events ++ [⟨o.name, .null⟩]) dest navo
              else
                .cont rest2 operands unknown (events ++ [⟨o.name, .str v⟩]) dest navo
            | [] =>
              .cont rest operands unknown (events ++ [⟨o.name, .null⟩]) dest navo
          else
            .cont rest operands unknown (events ++ [⟨o.name, .undef⟩]) dest navo
        | none => comboCheck ()
      else comboCheck ()
    -- an active variadic option consumes any token that is not option-like
    match avo with
    | some vo =>
      if maybeOption arg then mainBody ()
      else .cont rest operands unknown (events ++ [⟨vo.name, .str arg⟩]) dest (some vo)
    | none => mainBody ()

/-- The `while (args.length)` loop of `Command.prototype.parseOptions`
(command.ts lines 1678-1804): shift the front token and run one
`parseStep` per unit of fuel. A thrown `optionMissingArgument` is an
`error` carrying the error code. -/
def parseLoop (c : Cmd) : Nat → List Str → List Str → List Str → List OptEvent → Dest →
    Option Opt → Except String PState
  | _, [], operands, unknown, events, _, _ => .ok ⟨operands, unknown, events⟩
  | 0, _ :: _, _, _, _, _, _ =>
    .error "fuel" -- unreachable when started with `tokensMeasure args` fuel
  | n + 1, arg :: rest, operands, unknown, events, dest, avo =>
    match parseStep c arg rest operands unknown events dest avo with
    | .done ps => .ok ps
    | .fail code => .error code
    | .cont args2 operands2 unknown2 events2 dest2 avo2 =>
      parseLoop c n args2 operands2 unknown2 events2 dest2 avo2

/-- `Command.prototype.parseOptions(argv)`: the loop started on a copy of
`argv` with empty `operands`/`unknown`, `dest` at `operands` and no active
variadic option. -/
def Cmd.parseOptions (c : Cmd) (argv : List Str) : Except String PState :=
  parseLoop c (tokensMeasure argv) argv [] [] [] .operands none

deriving instance DecidableEq for Except

/-- A command with no options, subcommands or behavioural flags set. -/
def emptyCmd : Cmd := { options := [] }

example : emptyCmd.parseOptions [chars "a", chars "b"] =
    .ok ⟨[chars "a", chars "b"], [], []⟩ := by decide

example : emptyCmd.parseOptions [chars "--", chars "--"] =
    .ok ⟨[chars "--"], [], []⟩ := by decide

example : emptyCmd.parseOptions [chars "-q", chars "--", chars "x"] =
    .ok ⟨[], [chars "-q", chars "--", chars "x"], []⟩ := by decide

/-! ## Value resolution (addOption's option/optionEnv listener, command.ts 698-761) -/

/-- The per-parse option-value state of a command: its declared options, the
`#optionValues` map and the `_optionValueSources` map. A key that is absent
reads as `undefined`; a source may also be stored as `undefined` explicitly
(`setOptionValue` does that), so the stored value is an `Option String`. -/
structure CmdState where
  options : List Opt
  optionValues : List (Str × JValue) := []
  optionValueSources : List (Str × Option String) := []

/-- `Command.prototype.getOptionValue` (non-`storeOptionsAsProperties` form). -/
def CmdState.getOptionValue (st : CmdState) (key : Str) : JValue :=
  (lookupA st.optionValues key).getD (.undef)

/-- `Command.prototype.getOptionValueSource`. -/
def CmdState.getOptionValueSource (st : CmdState) (key : Str) : Option String :=
  (lookupA st.optionValueSources key).getD none

/-- `Command.prototype.setOptionValueWithSource`. -/
def CmdState.setOptionValueWithSource (st : CmdState) (key : Str) (value : JValue)
    (source : Option String) : CmdState :=
  ⟨st.options, setA st.optionValues key value, setA st.optionValueSources key source⟩

/-- Step one of `handleOptionValue` (command.ts 720-725): substitute the
preset when the raw value is nullish and a preset is declared. -/
def presetStep (o : Opt) (val : JValue) : JValue :=
  if nullish val && decide (o.presetArg ≠ .undef) then o.presetArg else val

/-- Step two of `handleOptionValue` (command.ts 727-733): custom processing
via `parseArg` when the value is not `null` (JS `val !== null` also lets
`undefined` through), else variadic accumulation. -/
def coerceStep (o : Opt) (oldValue val : JValue) : JValue :=
  match o.parseArg with
  | some f => if val ≠ .null then f val oldValue else val
  | none => if val ≠ JValue.null && o.variadic then o.concatValue val oldValue else val

/-- Step three of `handleOptionValue` (command.ts 735-744): fill in the
appropriate missing value when the result is still nullish. -/
def fillMissing (o : Opt) (val : JValue) : JValue :=
  if nullish val then
    if o.negate then .bool false
    else if o.isBoolean || o.optional then .bool true
    else .str [] -- not normal: parseArg may have returned undefined
  else val

/-- `handleOptionValue` of `addOption` (command.ts 720-746): the value that
gets stored for an `option:`/`optionEnv:` event carrying raw value `val`,
when the current value is `oldValue`. -/
def handleOptionValue (o : Opt) (oldValue val : JValue) : JValue :=
  fillMissing o (coerceStep o oldValue (presetStep o val))

/-- The `option:`/`optionEnv:` listener of `addOption`: compute the value via
`handleOptionValue` and store it with the event's source. -/
def CmdState.applyOptionEvent (st : CmdState) (o : Opt) (val : JValue) (source : String) :
    CmdState :=
  let key := o.attributeName
  st.setOptionValueWithSource key (handleOptionValue o (st.getOptionValue key) val) (some source)

/-! ## The environment pass (`_parseOptionsEnv`, command.ts 1872-1895) -/

/-- The body of the `forEach` of `_parseOptionsEnv` for one option: when the
option has an env var that is present in `env` and the priority check passes,
emit an `optionEnv:` event (with the env string when the option can take a
value, with no value for a boolean) and apply it; otherwise do nothing.
Returns the updated state and the events emitted for this option. -/
def envStep (st : CmdState) (env : List (Str × Str)) (o : Opt) : CmdState × List OptEvent :=
  match o.envVar with
  | none => (st, [])
  | some ev =>
    match lookupA env ev with
    | none => (st, [])
    | some envVal =>
      let optionKey := o.attributeName
      if st.getOptionValue optionKey = .undef
          ∨ st.getOptionValueSource optionKey ∈
              ([some "default", some "config", some "env"] : List (Option String)) then
        if o.required || o.optional then
          (st.applyOptionEvent o (.str envVal) "env", [⟨o.name, .str envVal⟩])
        else
          (st.applyOptionEvent o (.undef) "env", [⟨o.name, .undef⟩])
      else (st, [])

/-- `Command.prototype._parseOptionsEnv`: the `forEach` over `this.options`,
threading the state (each emit is handled synchronously) and collecting the
emitted events in order. -/
def CmdState.parseOptionsEnv (st : CmdState) (env : List (Str × Str)) :
    CmdState × List OptEvent :=
  st.options.foldl (fun acc o =>
    let r := envStep acc.1 env o
    (r.1, acc.2 ++ r.2)) (st, [])

/-! ## Conflict validation (command.ts 1632-1664, 1976-2011) -/

/-- The structured error of error.js: exit code and stable code string (the
human-readable message is not modelled). -/
structure CommanderError where
  exitCode : Int
  code : String
  deriving DecidableEq

/-- The error `#conflictingOption` raises through `this.error` (command.ts
2010): default exit code 1 and code `commander.conflictingOption`. -/
def conflictingOptionError : CommanderError :=
  ⟨1, "commander.conflictingOption"⟩

/-- The filter of `#checkForConflictingLocalOptions` (command.ts 1633-1639):
options with a defined value whose source is not `"default"`. -/
def definedNonDefaultFilter (st : CmdState) (o : Opt) : Bool :=
  decide (st.getOptionValue o.attributeName ≠ .undef)
    && decide (st.getOptionValueSource o.attributeName ≠ some "default")

/-- `definedNonDefaultOptions` of `#checkForConflictingLocalOptions`. -/
def definedNonDefaultOptions (st : CmdState) : List Opt :=
  st.options.filter (definedNonDefaultFilter st)

/-- `Command.#checkForConflictingLocalOptions` (command.ts 1632-1653): among
the defined non-default options, the first whose `conflictsWith` names the
attribute of a defined non-default option raises `commander.conflictingOption`
(via `#conflictingOption`); `none` means no error. -/
def CmdState.checkForConflictingLocalOptions (st : CmdState) : Option CommanderError :=
  let dnd := definedNonDefaultOptions st
  let optionsWithConflicting := dnd.filter (fun o => !o.conflictsWith.isEmpty)
  optionsWithConflicting.findSome? (fun o =>
    ((dnd.find? (fun defined => decide (defined.attributeName ∈ o.conflictsWith))).map
      (fun _ => conflictingOptionError)))

/-! ## Life-cycle hooks (`#chainOrCallHooks`, command.ts 1453-1478) -/

/-- The three hook events `hook()` accepts. -/
inductive HookEvent where
  | preSubcommand
  | preAction
  | postAction
  deriving DecidableEq

/-- A command as `#chainOrCallHooks` sees it: its `#lifeCycleHooks` record.
Each field is `null` (`none`) until the first `hook()` call for that event
creates the array; hooks are identified by label. -/
structure HookCmd where
  preSubcommand : Option (List String) := none
  preAction : Option (List String) := none
  postAction : Option (List String) := none

/-- `this.#lifeCycleHooks[event]`. -/
def HookCmd.lifeCycleHooks (c : HookCmd) : HookEvent → Option (List String)
  | .preSubcommand => c.preSubcommand
  | .preAction => c.preAction
  | .postAction => c.postAction

/-- The hook-collecting loop of `#chainOrCallHooks` over the reversed
ancestor chain. The filter in the source keeps a command whose hook field
is not `undefined`; the field is initialised to `null`, never `undefined`,
so every command passes the filter, and iterating a `null` field throws a
TypeError, modelled as `error ()`. -/
def collectHooks (event : HookEvent) : List HookCmd → Except Unit (List String)
  | [] => .ok []
  | c :: cs =>
    match c.lifeCycleHooks event with
    | none => .error ()
    | some hs => (collectHooks event cs).map (fun t => hs ++ t)

/-- The order in which `#chainOrCallHooks` runs the hooks for `event`, on a
command chain given leaf first (as `#getCommandAndAncestors` returns it):
gather over the reversed chain (root first), in declaration order within
each command, then reverse the whole list for `postAction`. -/
def chainOrCallHooksOrder (chain : List HookCmd) (event : HookEvent) :
    Except Unit (List String) :=
  (collectHooks event chain.reverse).map
    (fun hooks => if event = .postAction then hooks.reverse else hooks)

/-- The order in which `#chainOrCallSubCommandHook` runs this command's own
hooks (command.ts 1480-1494): declaration order; a `null` field passes the
`!== undefined` test and then throws on iteration. -/
def chainOrCallSubCommandHookOrder (c : HookCmd) (event : HookEvent) :
    Except Unit (List String) :=
  match c.lifeCycleHooks event with
  | none => .error ()
  | some hs => .ok hs

/-! ## Inspector-port rewrite (`incrementNodeInspectorPort`, command.ts 2492-2533) -/

/-- Strip `pre` from the front of `s`: `some` of the remainder when `pre` is
a prefix of `s`, else `none` (used for `startsWith` and anchored prefixes of
the inspect regexes). -/
def stripPre : List Char → List Char → Option (List Char)
  | [], s => some s
  | _ :: _, [] => none
  | p :: ps, x :: xs => if x = p then stripPre ps xs else none

/-- The regex `^\d+$`: non-empty, digits only. -/
def isDigits (s : Str) : Bool :=
  !s.isEmpty && s.all Char.isDigit

/-- `Number.parseInt` on an all-digit string. -/
def digitsToNat (s : Str) : Nat :=
  s.foldl (fun a c => a * 10 + (c.toNat - 48)) 0

/-- A natural number rendered in decimal, as the template string renders
`Number.parseInt(debugPort) + 1`. -/
def natToChars (n : Nat) : Str := (Nat.repr n).data

/-- The common shape of the second and third inspect regexes,
`^(--inspect(-brk|-port)?)=`: the matched group and the text after `=`.
The three alternatives are mutually exclusive on any concrete string. -/
def inspectAssign (arg : Str) : Option (Str × Str) :=
  match stripPre (chars "--inspect-brk=") arg with
  | some rest => some (chars "--inspect-brk", rest)
  | none =>
    match stripPre (chars "--inspect-port=") arg with
    | some rest => some (chars "--inspect-port", rest)
    | none =>
      match stripPre (chars "--inspect=") arg with
      | some rest => some (chars "--inspect", rest)
      | none => none

/-- The per-token body of `incrementNodeInspectorPort` (command.ts 2497-2532).
`parsed` is `(debugOption, debugHost, debugPort)` when one of the three
regexes matched (defaults `127.0.0.1` / `9229`); the token is rewritten when
a regex matched and the port is not the string `"0"`. The second regex
`^(--inspect(-brk|-port)?)=([^:]+)$` is the one-piece case of the split on
`:` (non-empty, digits mean a port, else a host); the third
`^(--inspect(-brk|-port)?)=([^:]+):(\d+)$` is the two-piece case. -/
def incArg (arg : Str) : Str :=
  if (stripPre (chars "--inspect") arg).isNone then arg
  else
    let parsed : Option (Str × Str × Str) :=
      if arg = chars "--inspect" ∨ arg = chars "--inspect-brk" then
        some (arg, chars "127.0.0.1", chars "9229")
      else
        match inspectAssign arg with
        | some (opt2, rest) =>
          match splitOnChar ':' rest with
          | [r] =>
            if r.isEmpty then none
            else if isDigits r then some (opt2, chars "127.0.0.1", r)
            else some (opt2, r, chars "9229")
          | [h, p] => if !h.isEmpty && isDigits p then some (opt2, h, p) else none
          | _ => none
        | none => none
    match parsed with
    | some (debugOption, debugHost, debugPort) =>
      if debugPort ≠ ['0'] then
        debugOption ++ '=' :: (debugHost ++ ':' :: natToChars (digitsToNat debugPort + 1))
      else arg
    | none => arg

/-- `incrementNodeInspectorPort`: map the rewrite over the argument list. -/
def incrementNodeInspectorPort (args : List Str) : List Str :=
  args.map incArg

example : incrementNodeInspectorPort [chars "--inspect"] = [chars "--inspect=127.0.0.1:9230"] := by
  decide

example : incrementNodeInspectorPort [chars "--inspect=localhost:1234"] =
    [chars "--inspect=localhost:1235"] := by decide

example : incrementNodeInspectorPort [chars "--inspect-port"] = [chars "--inspect-port"] := by
  decide

example : incrementNodeInspectorPort [chars "--inspect=127.0.0.1:0"] =
    [chars "--inspect=127.0.0.1:0"] := by decide

/-! ## Argument registration (`addArgument`, command.ts 406-433) -/

/-- The `Argument` class of argument.ts, as `addArgument` consults it. -/
structure Arg where
  name : Str
  required : Bool := true
  variadic : Bool := false
  defaultValue : JValue := .undef
  parseArg : Option (JValue → JValue → JValue) := none

/-- `Command.prototype.addArgument`: throw when the previously registered
argument (`registeredArguments.slice(-1)[0]`) is variadic, or when the new
argument is required with a defined default and no `parseArg`; otherwise
append to `registeredArguments`. Errors carry the thrown message's gist. -/
def addArgument (registeredArguments : List Arg) (arg : Arg) :
    Except String (List Arg) :=
  let previousArgument := registeredArguments.getLast?
  if (previousArgument.map (fun p => p.variadic)).getD false = true then
    .error "only the last argument can be variadic"
  else if arg.required = true ∧ arg.defaultValue ≠ .undef ∧ arg.parseArg.isNone = true then
    .error "a default value for a required argument is never used"
  else
    .ok (registeredArguments ++ [arg])

/-! ## Alias registration (`alias`, command.ts 2155-2184) -/

/-- A command as `alias()` consults it: `_name`, `_aliases` and the
truthiness of `_executableHandler`. -/
structure ACmd where
  name : Str
  aliases : List Str := []
  isExecutable : Bool := false
  deriving DecidableEq

/-- The surroundings of the command `alias()` is called on: the command
itself, its `this.commands` children, and the commands of `this.parent`
(`none` when there is no parent). -/
structure AliasCtx where
  self : ACmd
  commands : List ACmd := []
  parentCommands : Option (List ACmd) := none

/-- `this.parent?.#findCommand(alias)` as `alias()` uses it (by name or
alias; a falsy empty name finds nothing). -/
def parentFindCommand (ctx : AliasCtx) (al : Str) : Option ACmd :=
  match ctx.parentCommands with
  | none => none
  | some cmds =>
    if al.isEmpty then none
    else cmds.find? (fun c => decide (c.name = al) || decide (al ∈ c.aliases))

/-- The shared tail of `alias()` once the target command is chosen: the two
eager errors, else push the alias onto the target's `_aliases`. -/
def aliasPush (ctx : AliasCtx) (target : ACmd) (al : Str) : Except String ACmd :=
  if al = target.name then
    .error "Command alias cannot be the same as its name"
  else if (parentFindCommand ctx al).isSome then
    .error "cannot add alias as already have command"
  else
    .ok ⟨target.name, target.aliases ++ [al], target.isExecutable⟩

/-- `Command.prototype.alias(alias)` (setter form): when the last added
subcommand is an executable handler the alias is registered on it, else on
this command. Returns the updated `(self, commands)` pair. -/
def aliasAdd (ctx : AliasCtx) (al : Str) : Except String (ACmd × List ACmd) :=
  match ctx.commands.getLast? with
  | some lastc =>
    if lastc.isExecutable then
      (aliasPush ctx lastc al).map (fun c => (ctx.self, ctx.commands.dropLast ++ [c]))
    else
      (aliasPush ctx ctx.self al).map (fun c => (c, ctx.commands))
  | none =>
    (aliasPush ctx ctx.self al).map (fun c => (c, ctx.commands))

/-! ## parseOptions over explicit array references (for the frame claim)

`parseOptions` receives the caller's `argv` array by reference and starts
with `const args = argv.slice()`: every later mutation (`shift`, `unshift`,
`push`) happens on the copy or on the fresh `operands`/`unknown` arrays.
To state that the caller's array is untouched, the same loop is given again
with the mutable arrays held in an explicit heap of array cells: cell 0 is
the caller's `argv`, cell 1 `operands`, cell 2 `unknown`; `dest` is the
cell number it aliases. The local copy `args` is threaded as a value (its
identity is never observed). -/

/-- A heap of JS array-of-string objects, addressed by cell number. -/
def Heap := Nat → List Str

/-- Overwrite one cell. -/
def hset (h : Heap) (r : Nat) (v : List Str) : Heap :=
  fun i => if i = r then v else h i

/-- `array.push(...vs)` on cell `r`. -/
def hpush (h : Heap) (r : Nat) (vs : List Str) : Heap :=
  hset h r (h r ++ vs)

/-- The outcome of the heap-passing run: the final heap, the events, and the
raised error code when the run threw. -/
structure HeapResult where
  heap : Heap
  events : List OptEvent
  errorCode : Option String

/-- What one heap-view iteration decides: stop with the final heap, events
and possibly a thrown error code, or continue with an updated heap, `args`,
events, `dest` cell and active variadic option. -/
inductive HStepRes where
  | done (h : Heap) (events : List OptEvent) (errorCode : Option String)
  | cont (h : Heap) (args : List Str) (events : List OptEvent) (destRef : Nat)
      (avo : Option Opt)

/-- Heap view, unrecognised-token handling (command.ts 1760-1800): switch
`dest` to the `unknown` cell for an option-like token, then the
positional-options stops, the pass-through stop, or the plain push. -/
def heapStepFallback (c : Cmd) (h : Heap) (arg : Str) (rest : List Str)
    (events : List OptEvent) (destRef : Nat) : HStepRes :=
  let dest2 := if maybeOption arg then 2 else destRef
  let tail : Unit → HStepRes := fun _ =>
    if c.passThroughOptions then
      .done (hpush h dest2 ([arg] ++ rest)) events none
    else
      .cont (hpush h dest2 [arg]) rest events dest2 none
  if (c.enablePositionalOptions || c.passThroughOptions)
      && (h 1).isEmpty && (h 2).isEmpty then
    if (c.findCommand arg).isSome then
      .done (hpush (hpush h 1 [arg]) 2 rest) events none
    else if c.helpCommandName = some arg then
      .done (hpush h 1 ([arg] ++ rest)) events none
    else if c.defaultCommandName.isSome then
      .done (hpush h 2 ([arg] ++ rest)) events none
    else tail ()
  else tail ()

/-- Heap view, known long flag with value `--foo=bar` (command.ts
1750-1758), else fall through. -/
def heapStepLong (c : Cmd) (h : Heap) (arg : Str) (rest : List Str)
    (events : List OptEvent) (destRef : Nat) : HStepRes :=
  match arg with
  | b0 :: b1 :: cs =>
    if b0 = '-' ∧ b1 = '-' then
      let pre := cs.takeWhile (fun ch => ch ≠ '=')
      if !pre.isEmpty && pre.length < cs.length then
        match c.findOption ('-' :: '-' :: pre) with
        | some o =>
          if o.required || o.optional then
            .cont h rest
              (events ++ [⟨o.name, .str (cs.drop (pre.length + 1))⟩]) destRef none
          else heapStepFallback c h arg rest events destRef
        | none => heapStepFallback c h arg rest events destRef
      else heapStepFallback c h arg rest events destRef
    else heapStepFallback c h arg rest events destRef
  | _ => heapStepFallback c h arg rest events destRef

/-- Heap view, combo short options `-Xrest` (command.ts 1731-1748), else
fall through. -/
def heapStepCombo (c : Cmd) (h : Heap) (arg : Str) (rest : List Str)
    (events : List OptEvent) (destRef : Nat) : HStepRes :=
  match arg with
  | a0 :: a1 :: a2 :: more =>
    if a0 = '-' then
      if a1 ≠ '-' then
        match c.findOption ['-', a1] with
        | some o =>
          if o.required || (o.optional && c.combineFlagAndOptionalValue) then
            .cont h rest (events ++ [⟨o.name, .str (a2 :: more)⟩]) destRef none
          else
            .cont h (('-' :: a2 :: more) :: rest)
              (events ++ [⟨o.name, .undef⟩]) destRef none
        | none => heapStepLong c h arg rest events destRef
      else heapStepLong c h arg rest events destRef
    else heapStepLong c h arg rest events destRef
  | _ => heapStepLong c h arg rest events destRef

/-- Heap view, exact match against a declared flag (command.ts 1707-1728),
else fall through. -/
def heapStepMain (c : Cmd) (h : Heap) (arg : Str) (rest : List Str)
    (events : List OptEvent) (destRef : Nat) : HStepRes :=
  if maybeOption arg then
    match c.findOption arg with
    | some o =>
      let navo := if o.variadic then some o else none
      if o.required then
        match rest with
        | [] => .done h events (some "commander.optionMissingArgument")
        | v :: rest2 =>
          .cont h rest2 (events ++ [⟨o.name, .str v⟩]) destRef navo
      else if o.optional then
        match rest with
        | v :: rest2 =>
          if maybeOption v then
            .cont h rest (events ++ [⟨o.name, .null⟩]) destRef navo
          else
            .cont h rest2 (events ++ [⟨o.name, .str v⟩]) destRef navo
        | [] =>
          .cont h rest (events ++ [⟨o.name, .null⟩]) destRef navo
      else
        .cont h rest (events ++ [⟨o.name, .undef⟩]) destRef navo
    | none => heapStepCombo c h arg rest events destRef
  else heapStepCombo c h arg rest events destRef

/-- One iteration of the `parseOptions` loop in the heap view, with
`operands`/`unknown` as heap cells 1 and 2 and `dest` as the aliased cell
number; branch for branch the same iteration as `parseStep`
(command.ts 1691-1801), split into the four named stages above. -/
def parseHeapStep (c : Cmd) (h : Heap) (arg : Str) (rest : List Str)
    (events : List OptEvent) (destRef : Nat) (avo : Option Opt) : HStepRes :=
  if arg = chars "--" then
    let h1 := if destRef = 2 then hpush h 2 [arg] else h
    .done (hpush h1 destRef rest) events none
  else
    match avo with
    | some vo =>
      if maybeOption arg then heapStepMain c h arg rest events destRef
      else .cont h rest (events ++ [⟨vo.name, .str arg⟩]) destRef (some vo)
    | none => heapStepMain c h arg rest events destRef

/-- The heap-view `parseOptions` loop: one `parseHeapStep` per unit of fuel. -/
def parseLoopHeap (c : Cmd) : Nat → Heap → List Str → List OptEvent → Nat → Option Opt →
    HeapResult
  | _, h, [], events, _, _ => ⟨h, events, none⟩
  | 0, h, _ :: _, events, _, _ => ⟨h, events, some "fuel"⟩
  | n + 1, h, arg :: rest, events, destRef, avo =>
    match parseHeapStep c h arg rest events destRef avo with
    | .done h2 events2 code => ⟨h2, events2, code⟩
    | .cont h2 args2 events2 destRef2 avo2 => parseLoopHeap c n h2 args2 events2 destRef2 avo2

/-- `parseOptions` in the heap view: read the caller's `argv` from cell 0,
take its copy as `args`, create the fresh `operands` and `unknown` arrays in
cells 1 and 2, point `dest` at `operands`, and run the loop. -/
def Cmd.parseOptionsHeap (c : Cmd) (h : Heap) : HeapResult :=
  let args := h 0
  parseLoopHeap c (tokensMeasure args) (hset (hset h 1 []) 2 []) args [] 1 none

/-! ## Claim C8: argument registration errors -/

/-- Whether an `Except` run threw. -/
def isErr {ε α : Type} : Except ε α → Bool
  | .error _ => true
  | .ok _ => false

/-- C8: `addArgument` throws an eager authoring error if and only if the
previously registered argument is variadic, or the new argument is required
and has a defined default value but no `parse_arg`; otherwise the argument
is appended to `registered_arguments`. -/
theorem C8_addArgument_errors_iff (regs : List Arg) (a : Arg) :
    (isErr (addArgument regs a) = true ↔
      ((regs.getLast?.map (fun p => p.variadic)).getD false = true
        ∨ (a.required = true ∧ a.defaultValue ≠ .undef ∧ a.parseArg = none)))
    ∧ (∀ res, addArgument regs a = .ok res → res = regs ++ [a]) := by
  by_cases h1 : (regs.getLast?.map (fun p => p.variadic)).getD false = true
  · constructor
    · simp [addArgument, h1, isErr]
    · intro res hres
      simp [addArgument, h1] at hres
  · by_cases h2 : a.required = true ∧ a.defaultValue ≠ .undef ∧ a.parseArg.isNone = true
    · constructor
      · simp only [addArgument, if_neg h1, if_pos h2, isErr, true_iff]
        exact Or.inr ⟨h2.1, h2.2.1, Option.isNone_iff_eq_none.mp h2.2.2⟩
      · intro res hres
        simp [addArgument, h1, h2] at hres
    · constructor
      · simp only [addArgument, if_neg h1, if_neg h2, isErr]
        simp only [Bool.false_eq_true, false_iff, not_or]
        refine ⟨h1, ?_⟩
        intro ⟨hr, hd, hp⟩
        exact h2 ⟨hr, hd, Option.isNone_iff_eq_none.mpr hp⟩
      · intro res hres
        simp only [addArgument, if_neg h1, if_neg h2] at hres
        exact (Except.ok.inj hres).symm

/-! ## Claim C9: alias target selection -/

/-- The successful branch of `aliasPush` produces the target with the alias
appended. -/
theorem aliasPush_ok (ctx : AliasCtx) (t : ACmd) (al : Str) (c : ACmd)
    (h : aliasPush ctx t al = .ok c) :
    c = ⟨t.name, t.aliases ++ [al], t.isExecutable⟩ := by
  unfold aliasPush at h
  split at h
  · exact absurd h (by simp)
  · split at h
    · exact absurd h (by simp)
    · exact (Except.ok.inj h).symm

/-- C9: when the most recently added subcommand is an executable-handler
subcommand, `alias(name)` registers the alias on that last subcommand and
leaves the command itself untouched; otherwise the alias is appended to the
command's own alias list and the subcommands are untouched. -/
theorem C9_alias_target (ctx : AliasCtx) (al : Str) :
    (∀ lastc, ctx.commands.getLast? = some lastc → lastc.isExecutable = true →
      ∀ r, aliasAdd ctx al = .ok r →
        r.1 = ctx.self ∧
        r.2 = ctx.commands.dropLast ++ [⟨lastc.name, lastc.aliases ++ [al], lastc.isExecutable⟩])
    ∧ ((ctx.commands.getLast?.map (fun c => c.isExecutable)).getD false = false →
      ∀ r, aliasAdd ctx al = .ok r →
        r.1 = ⟨ctx.self.name, ctx.self.aliases ++ [al], ctx.self.isExecutable⟩
          ∧ r.2 = ctx.commands) := by
  constructor
  · intro lastc hlast hexec r hr
    simp only [aliasAdd, hlast, hexec, if_true] at hr
    match hp : aliasPush ctx lastc al with
    | .error e => rw [hp] at hr; exact absurd hr (by simp [Except.map])
    | .ok cnew =>
      rw [hp] at hr
      simp only [Except.map, Except.ok.injEq] at hr
      rw [aliasPush_ok ctx lastc al cnew hp] at hr
      rw [← hr]
      exact ⟨rfl, rfl⟩
  · intro hnotexec r hr
    match hl : ctx.commands.getLast? with
    | some lastc =>
      rw [hl] at hnotexec
      simp only [Option.map_some', Option.getD_some] at hnotexec
      simp only [aliasAdd, hl, hnotexec, Bool.false_eq_true, if_false] at hr
      match hp : aliasPush ctx ctx.self al with
      | .error e => rw [hp] at hr; exact absurd hr (by simp [Except.map])
      | .ok cnew =>
        rw [hp] at hr
        simp only [Except.map, Except.ok.injEq] at hr
        rw [aliasPush_ok ctx ctx.self al cnew hp] at hr
        rw [← hr]
        exact ⟨rfl, rfl⟩
    | none =>
      simp only [aliasAdd, hl] at hr
      match hp : aliasPush ctx ctx.self al with
      | .error e => rw [hp] at hr; exact absurd hr (by simp [Except.map])
      | .ok cnew =>
        rw [hp] at hr
        simp only [Except.map, Except.ok.injEq] at hr
        rw [aliasPush_ok ctx ctx.self al cnew hp] at hr
        rw [← hr]
        exact ⟨rfl, rfl⟩

/-! ## Claim C4: resolution of a missing raw value -/

/-- C4: for an option event whose raw value is nullish, a declared
`preset_arg` is substituted as the raw value; and when the value is still
nullish after the coercion step, the stored value is `true` for a boolean
option, `false` for a negated option, `true` for an optional option used
without a value (the source checks `negate` first), and `""` in the
remaining defensive case. -/
theorem C4_missing_raw_value_resolution (o : Opt) (oldValue v : JValue) :
    (nullish v = true → o.presetArg ≠ .undef →
      handleOptionValue o oldValue v = handleOptionValue o oldValue o.presetArg)
    ∧ (nullish (coerceStep o oldValue (presetStep o v)) = true →
      ((o.isBoolean = true → handleOptionValue o oldValue v = .bool true)
        ∧ (o.negate = true → handleOptionValue o oldValue v = .bool false)
        ∧ (o.optional = true → o.negate = false → handleOptionValue o oldValue v = .bool true)
        ∧ (o.negate = false → o.isBoolean = false → o.optional = false →
            handleOptionValue o oldValue v = .str []))) := by
  constructor
  · intro hv hp
    unfold handleOptionValue
    have h1 : presetStep o v = o.presetArg := by
      unfold presetStep
      simp [hv, hp]
    have h2 : presetStep o o.presetArg = o.presetArg := by
      unfold presetStep
      split <;> rfl
    rw [h1, h2]
  · intro hnull
    have hfill : handleOptionValue o oldValue v =
        fillMissing o (coerceStep o oldValue (presetStep o v)) := rfl
    refine ⟨?_, ?_, ?_, ?_⟩
    · intro hb
      have hneg : o.negate = false := by
        unfold Opt.isBoolean at hb
        simp only [Bool.and_eq_true, Bool.not_eq_true'] at hb
        exact hb.2
      rw [hfill]
      unfold fillMissing
      simp [hnull, hneg, hb]
    · intro hneg
      rw [hfill]
      unfold fillMissing
      simp [hnull, hneg]
    · intro hopt hneg
      rw [hfill]
      unfold fillMissing
      simp [hnull, hneg, hopt]
    · intro hneg hb hopt
      rw [hfill]
      unfold fillMissing
      simp [hnull, hneg, hb, hopt]

/-! ## Claim C1: the `--` literal -/

/-- The claim's invariant at one input, as stated: after parsing, `--` never
appears in `operands` nor in the final `args` (`operands ++ unknown`). -/
def c1ClaimHolds (c : Cmd) (argv : List Str) : Bool :=
  match c.parseOptions argv with
  | .ok ps => !(ps.operands.contains (chars "--")) && !((ps.operands ++ ps.unknown).contains (chars "--"))
  | .error _ => true

/-- C1 counterexample: on `["--", "--"]` (no options declared) the first
`--` pushes the remaining tokens verbatim into `operands`, so the second
`--` appears in `operands` and hence in `args`; the claim's "`--` never
appears in `operands` or the final `args`" is false. -/
theorem C1_counterexample : c1ClaimHolds emptyCmd [chars "--", chars "--"] = false := by decide

/-- C1 amended: when the parser meets a literal `--`, the remaining tokens
are pushed verbatim onto the current destination — `operands`, or `unknown`
when an unknown option was seen earlier — and the `--` itself is pushed
(onto `unknown`) only in the latter case; the loop then stops. In
particular a later `--` among the remaining tokens passes through, and when
the destination is `unknown` the remaining tokens do not go to `operands`. -/
theorem C1_literal_double_dash (c : Cmd) (n : Nat) (rest operands unknown : List Str)
    (events : List OptEvent) (dest : Dest) (avo : Option Opt) :
    parseLoop c (n + 1) (chars "--" :: rest) operands unknown events dest avo =
      .ok ⟨(if dest = .operands then operands ++ rest else operands),
           (if dest = .unknown then (unknown ++ [chars "--"]) ++ rest else unknown),
           events⟩ := by
  cases dest <;> rfl

/-! ## Claim C6: hook execution order -/

/-- The order the claim asserts for `postAction`: walk the chain leaf→root
(the chain is given leaf first), in declaration order within each command. -/
def c6ClaimPostActionOrder (chain : List HookCmd) : List String :=
  (chain.map (fun c => c.postAction.getD [])).flatten

/-- The claim's assertion at one chain: `postAction` hooks execute leaf→root
in declaration order within each command. -/
def c6ClaimHolds (chain : List HookCmd) : Bool :=
  decide (chainOrCallHooksOrder chain .postAction = .ok (c6ClaimPostActionOrder chain))

/-- A single command with two `postAction` hooks declared in order. -/
def hookChainCex : List HookCmd :=
  [{ preSubcommand := some [], preAction := some [], postAction := some ["h1", "h2"] }]

/-- C6 counterexample: a single command with postAction hooks `[h1, h2]`
runs them as `[h2, h1]` (the whole flattened list is reversed), not in
declaration order as the claim states. -/
theorem C6_counterexample : c6ClaimHolds hookChainCex = false := by decide

/-- On a chain where every command has a hook array for `event`, the
collection loop gathers them in order. -/
theorem collectHooks_all_some (event : HookEvent) :
    ∀ l : List HookCmd, (∀ c ∈ l, (c.lifeCycleHooks event).isSome) →
      collectHooks event l = .ok ((l.map (fun c => (c.lifeCycleHooks event).getD [])).flatten) := by
  intro l
  induction l with
  | nil => intro _; rfl
  | cons c cs ih =>
    intro h
    have hc := h c (List.mem_cons_self c cs)
    match hcc : c.lifeCycleHooks event with
    | none => rw [hcc] at hc; simp at hc
    | some hs =>
      simp only [collectHooks, hcc]
      rw [ih (fun d hd => h d (List.mem_cons_of_mem c hd))]
      simp [Except.map, hcc]

/-- C6 amended: provided every command in the chain has registered hooks
for the event (otherwise the collection loop iterates a `null` field and
throws a TypeError), `preSubcommand` and `preAction` hooks run root→leaf in
declaration order within each command, while `postAction` hooks run as the
reverse of that whole flattened sequence: leaf→root across commands AND in
reverse declaration order within each command. -/
theorem C6_hook_order (chain : List HookCmd) (event : HookEvent)
    (h : ∀ c ∈ chain, (c.lifeCycleHooks event).isSome) :
    chainOrCallHooksOrder chain event =
      .ok (if event = .postAction
        then (chain.map (fun c => ((c.lifeCycleHooks event).getD []).reverse)).flatten
        else (chain.reverse.map (fun c => (c.lifeCycleHooks event).getD [])).flatten) := by
  have hcol := collectHooks_all_some event chain.reverse
    (fun c hc => h c (List.mem_reverse.mp hc))
  unfold chainOrCallHooksOrder
  rw [hcol]
  simp only [Except.map]
  by_cases hev : event = .postAction
  · subst hev
    rw [if_pos rfl, if_pos rfl]
    congr 1
    rw [List.reverse_flatten, List.map_map, ← List.map_reverse, List.reverse_reverse]
    rfl
  · rw [if_neg hev, if_neg hev]

/-- A two-command chain (leaf first) with hooks registered for every event. -/
def chainC6W : List HookCmd :=
  [{ preSubcommand := some ["leaf-pre-sub"], preAction := some ["leaf-pre-1", "leaf-pre-2"],
     postAction := some ["leaf-post-1", "leaf-post-2"] },
   { preSubcommand := some ["root-pre-sub"], preAction := some ["root-pre"],
     postAction := some ["root-post-1", "root-post-2"] }]

theorem C6_hook_order_witness :
    chainOrCallHooksOrder chainC6W .postAction =
      .ok (if HookEvent.postAction = .postAction
        then (chainC6W.map
          (fun c => ((c.lifeCycleHooks .postAction).getD []).reverse)).flatten
        else (chainC6W.reverse.map
          (fun c => (c.lifeCycleHooks .postAction).getD [])).flatten) :=
  C6_hook_order chainC6W .postAction (by decide)

/-! ## Claim C3: the environment pass condition -/

/-- The set of sources the claim names: `{undefined, default, config, env}`. -/
def c3ClaimSourceSet (st : CmdState) (key : Str) : Bool :=
  decide (st.getOptionValueSource key ∈
    ([none, some "default", some "config", some "env"] : List (Option String)))

/-- An option bound to env var `PORT` taking a required value. -/
def optPortEnv : Opt :=
  { long := some (chars "--port"), required := true, envVar := some (chars "PORT") }

/-- A state where `port` has a value but its source is `undefined`, as
`setOptionValue` (client code) leaves it. -/
def stC3 : CmdState :=
  { options := [optPortEnv],
    optionValues := [(chars "port", .str (chars "1234"))],
    optionValueSources := [] }

def envC3 : List (Str × Str) := [(chars "PORT", chars "9000")]

/-- The claim at `stC3`: the env pass emits an event for `port` iff the
current value source is in `{undefined, default, config, env}`. -/
def c3ClaimHolds : Bool :=
  decide ((stC3.parseOptionsEnv envC3).2 ≠ []) == c3ClaimSourceSet stC3 (chars "port")

/-- C3 counterexample: `port` has a client-code value (source `undefined`,
which IS in the claim's set), yet the env pass emits nothing, because the
code's guard requires the value to be undefined, not the source — the
claimed "if and only if" fails. -/
theorem C3_counterexample : c3ClaimHolds = false := by decide

/-- C3 amended: the env pass emits an env event for an option (whose env
var is present) if and only if the option's current VALUE is undefined or
its source is one of `{default, config, env}`; consequently an option whose
source is `cli` and whose value is defined is left untouched (so a
cli-sourced value is never overwritten, while env overrides default and
config). -/
theorem C3_env_emit_condition (st : CmdState) (env : List (Str × Str)) (o : Opt) :
    ((envStep st env o).2 ≠ [] ↔
      ((∃ ev, o.envVar = some ev ∧ (lookupA env ev).isSome)
        ∧ (st.getOptionValue o.attributeName = .undef
          ∨ st.getOptionValueSource o.attributeName ∈
              ([some "default", some "config", some "env"] : List (Option String)))))
    ∧ (st.getOptionValueSource o.attributeName = some "cli"
        ∧ st.getOptionValue o.attributeName ≠ .undef → envStep st env o = (st, [])) := by
  constructor
  · rcases hev : o.envVar with _ | ev
    · simp [envStep, hev]
    · rcases hl : lookupA env ev with _ | envVal
      · simp [envStep, hev, hl]
      · simp only [envStep, hev, hl]
        by_cases hguard : st.getOptionValue o.attributeName = .undef
            ∨ st.getOptionValueSource o.attributeName ∈
                ([some "default", some "config", some "env"] : List (Option String))
        · rw [if_pos hguard]
          by_cases hro : (o.required || o.optional) = true
          · rw [if_pos hro]
            simp [hl]
            simpa using hguard
          · rw [if_neg hro]
            simp [hl]
            simpa using hguard
        · rw [if_neg hguard]
          simp only [ne_eq, not_true_eq_false, false_iff, not_and]
          intro _
          exact hguard
  · intro ⟨hcli, hval⟩
    rcases hev : o.envVar with _ | ev
    · simp [envStep, hev]
    · rcases hl : lookupA env ev with _ | envVal
      · simp [envStep, hev, hl]
      · have hguard : ¬(st.getOptionValue o.attributeName = .undef
            ∨ st.getOptionValueSource o.attributeName ∈
                ([some "default", some "config", some "env"] : List (Option String))) := by
          rintro (hundef | hmem)
          · exact hval hundef
          · rw [hcli] at hmem
            simp at hmem
        simp only [envStep, hev, hl]
        rw [if_neg hguard]

/-! ## Claim C5: conflict validation -/

/-- The considered set as the claim's words read: options whose current
value source exists and is not `default`. -/
def specNonDefaultSource (st : CmdState) (o : Opt) : Bool :=
  match st.getOptionValueSource o.attributeName with
  | some s => decide (s ≠ "default")
  | none => false

/-- `findSome?` succeeds when some member produces a value. -/
theorem findSome?_isSome_of_mem {α β : Type} {f : α → Option β} {l : List α} {x : α}
    (hx : x ∈ l) (hfx : (f x).isSome = true) : (l.findSome? f).isSome = true := by
  induction l with
  | nil => cases hx
  | cons y ys ih =>
    rcases List.mem_cons.mp hx with h | h
    · subst h
      match hf : f x with
      | some b => simp [List.findSome?, hf]
      | none => rw [hf] at hfx; cases hfx
    · match hf : f y with
      | some b => simp [List.findSome?, hf]
      | none => simpa [List.findSome?, hf] using ih h

/-- When `f` only ever produces one value, so does `findSome?`. -/
theorem findSome?_of_const {α β : Type} {err : β} {f : α → Option β}
    (hf : ∀ x, f x = none ∨ f x = some err) :
    ∀ l : List α, l.findSome? f = none ∨ l.findSome? f = some err := by
  intro l
  induction l with
  | nil => left; rfl
  | cons y ys ih =>
    rcases hf y with h | h
    · simpa [List.findSome?, h] using ih
    · right; simp [List.findSome?, h]

/-- C5: under the per-parse invariant that an option's value is undefined
exactly when its recorded source is undefined (true of every state the
parser itself produces: values are always stored together with a source),
conflict validation at a command considers exactly the options whose
current value source is not `default`; and if a considered option's
`conflicts_with` names the attribute of another considered option, the
check raises the structured error with code `commander.conflictingOption`. -/
theorem C5_conflicting_options (st : CmdState)
    (hwf : ∀ o ∈ st.options,
      (st.getOptionValue o.attributeName = .undef
        ↔ st.getOptionValueSource o.attributeName = none)) :
    definedNonDefaultOptions st = st.options.filter (specNonDefaultSource st)
    ∧ (∀ o d, o ∈ st.options → definedNonDefaultFilter st o = true →
        d ∈ st.options → definedNonDefaultFilter st d = true →
        d.attributeName ∈ o.conflictsWith →
        st.checkForConflictingLocalOptions = some conflictingOptionError) := by
  constructor
  · unfold definedNonDefaultOptions
    apply List.filter_congr
    intro o ho
    unfold definedNonDefaultFilter specNonDefaultSource
    match hs : st.getOptionValueSource o.attributeName with
    | none =>
      have hv : st.getOptionValue o.attributeName = .undef := (hwf o ho).mpr hs
      simp [hv]
    | some s =>
      have hv : st.getOptionValue o.attributeName ≠ .undef := by
        intro hu
        rw [(hwf o ho).mp hu] at hs
        cases hs
      simp [hv, hs]
  · intro o d ho hof hd hdf hconf
    have hod : o ∈ definedNonDefaultOptions st := List.mem_filter.mpr ⟨ho, hof⟩
    have hdd : d ∈ definedNonDefaultOptions st := List.mem_filter.mpr ⟨hd, hdf⟩
    have hoc : o ∈ (definedNonDefaultOptions st).filter (fun o => !o.conflictsWith.isEmpty) := by
      refine List.mem_filter.mpr ⟨hod, ?_⟩
      have : o.conflictsWith ≠ [] := List.ne_nil_of_mem hconf
      simpa [List.isEmpty_iff]
    set f : Opt → Option CommanderError := fun o =>
      ((definedNonDefaultOptions st).find?
        (fun defined => decide (defined.attributeName ∈ o.conflictsWith))).map
          (fun _ => conflictingOptionError) with hfdef
    have hfo : (f o).isSome = true := by
      rw [hfdef]
      simp only [Option.isSome_map']
      rw [List.find?_isSome]
      exact ⟨d, hdd, by simpa using hconf⟩
    have hsome := findSome?_isSome_of_mem hoc hfo
    have hconst := @findSome?_of_const Opt CommanderError conflictingOptionError f
      (fun x => by
        rw [hfdef]
        match hfind : (definedNonDefaultOptions st).find?
            (fun defined => decide (defined.attributeName ∈ x.conflictsWith)) with
        | some w => right; simp [hfind]
        | none => left; simp [hfind])
      ((definedNonDefaultOptions st).filter (fun o => !o.conflictsWith.isEmpty))
    unfold CmdState.checkForConflictingLocalOptions
    rcases hconst with hnone | herr
    · rw [hnone] at hsome; cases hsome
    · exact herr

/-- `--silent` declared to conflict with `verbose`. -/
def optSilentW : Opt := { long := some (chars "--silent"), conflictsWith := [chars "verbose"] }

def optVerboseW : Opt := { long := some (chars "--verbose") }

/-- A state where both conflicting options were set from the command line. -/
def stC5W : CmdState :=
  { options := [optSilentW, optVerboseW],
    optionValues := [(chars "silent", .bool true), (chars "verbose", .bool true)],
    optionValueSources := [(chars "silent", some "cli"), (chars "verbose", some "cli")] }

theorem C5_conflicting_options_witness :
    definedNonDefaultOptions stC5W = stC5W.options.filter (specNonDefaultSource stC5W)
    ∧ stC5W.checkForConflictingLocalOptions = some conflictingOptionError :=
  ⟨(C5_conflicting_options stC5W (by decide)).1,
   (C5_conflicting_options stC5W (by decide)).2 optSilentW optVerboseW
     (List.Mem.head _) (by decide) (List.Mem.tail _ (List.Mem.head _)) (by decide)
     (by decide)⟩

/-! ## Claim C2: short option clusters `-Xrest` -/

/-- An option declared as `-xy, --xylo` (the source's deliberately loose
flag parsing accepts a multi-character short flag: "allowed for example
unintended `-sw`"). -/
def optXY : Opt := { short := some (chars "-xy"), long := some (chars "--xylo") }

/-- An option declared as `-x <n>`: short flag taking a required argument. -/
def optXReq : Opt := { short := some (chars "-x"), required := true }

def cmdC2 : Cmd := { options := [optXY, optXReq] }

/-- The claim at token `-xy` of `cmdC2`: `-x` is a declared short flag with
a required argument, so the claim demands the option event `(x, "y")`. -/
def c2ClaimHolds : Bool :=
  match cmdC2.parseOptions [chars "-xy"] with
  | .ok ps => ps.events.contains ⟨chars "x", .str (chars "y")⟩
  | .error _ => false

/-- C2 counterexample: the token `-xy` has the form `-Xrest` with `-X = -x`
declared and taking a required argument, but the parser's exact-match step
runs first: `-xy` is itself a declared flag, so the event emitted is the
boolean `xylo` event and no `(x, "y")` event is ever emitted. -/
theorem C2_counterexample : c2ClaimHolds = false := by decide

/-- C2 amended: for a token `-Xrest` (length over 2, single leading dash)
that is NOT itself an exact match of a declared flag, where `-X` is a
declared short flag: if `-X` takes a required argument, or an optional one
with `combine_flag_and_optional_value` on, the parser emits the option
event `(-X, rest)` and moves on; otherwise it emits `-X` as a boolean and
re-queues `-rest` as the next token for reprocessing. -/
theorem C2_short_cluster (c : Cmd) (n : Nat) (x y : Char) (more : List Char)
    (rest operands unknown : List Str) (events : List OptEvent) (dest : Dest) (o : Opt)
    (hx : x ≠ '-')
    (hexact : c.findOption ('-' :: x :: y :: more) = none)
    (hshort : c.findOption ['-', x] = some o) :
    parseLoop c (n + 1) (('-' :: x :: y :: more) :: rest) operands unknown events dest none =
      if o.required || (o.optional && c.combineFlagAndOptionalValue) then
        parseLoop c n rest operands unknown (events ++ [⟨o.name, .str (y :: more)⟩]) dest none
      else
        parseLoop c n (('-' :: y :: more) :: rest) operands unknown
          (events ++ [⟨o.name, .undef⟩]) dest none := by
  have hne : ('-' :: x :: y :: more) ≠ chars "--" := by
    intro h
    have := List.cons.inj h
    cases (List.cons.inj this.2).2
  have hmo : maybeOption ('-' :: x :: y :: more) = true := rfl
  have hstep : parseStep c ('-' :: x :: y :: more) rest operands unknown events dest none =
      if o.required || (o.optional && c.combineFlagAndOptionalValue) then
        .cont rest operands unknown (events ++ [⟨o.name, .str (y :: more)⟩]) dest none
      else
        .cont (('-' :: y :: more) :: rest) operands unknown
          (events ++ [⟨o.name, .undef⟩]) dest none := by
    unfold parseStep
    rw [if_neg hne]
    dsimp only
    rw [if_pos hmo]
    rw [hexact]
    dsimp only
    rw [if_pos rfl, if_pos hx]
    rw [hshort]
  rw [parseLoop.eq_def]
  dsimp only
  rw [hstep]
  by_cases hreq : (o.required || (o.optional && c.combineFlagAndOptionalValue)) = true
  · rw [if_pos hreq, if_pos hreq]
  · rw [if_neg hreq, if_neg hreq]

/-- C2 witness: a command with only `-x <n>`; the token `-xn1` emits the
event `(x, "n1")` and parsing continues on the remaining tokens. -/
def cmdC2W : Cmd := { options := [optXReq] }

theorem C2_short_cluster_witness :
    parseLoop cmdC2W (0 + 1) (('-' :: 'x' :: 'n' :: ['1']) :: []) [] [] [] .operands none =
      if optXReq.required || (optXReq.optional && cmdC2W.combineFlagAndOptionalValue) then
        parseLoop cmdC2W 0 [] [] [] [⟨optXReq.name, .str ('n' :: ['1'])⟩] .operands none
      else
        parseLoop cmdC2W 0 [('-' :: 'n' :: ['1'])] [] [] [⟨optXReq.name, .undef⟩] .operands none :=
  C2_short_cluster cmdC2W 0 'x' 'n' ['1'] [] [] [] [] .operands optXReq
    (by decide) rfl rfl

/-! ## Claim C10: parseOptions does not mutate the caller's argv -/

/-- Reading a cell another cell's push did not touch. -/
theorem hpush_out (h : Heap) (r : Nat) (vs : List Str) (r' : Nat) (hne : r' ≠ r) :
    hpush h r vs r' = h r' := by
  simp [hpush, hset, hne]

/-- The heap after one step. -/
def hstepHeap : HStepRes → Heap
  | .done h2 _ _ => h2
  | .cont h2 _ _ _ _ => h2

/-- The `dest` cell after one step (`dflt` for a final step). -/
def hstepDest (dflt : Nat) : HStepRes → Nat
  | .done _ _ _ => dflt
  | .cont _ _ _ d _ => d

/-- One loop iteration only writes the `operands` cell (1), the `unknown`
cell (2) or the cell `dest` aliases, and keeps `dest` off cell 0: the
caller's `argv` cell 0 is never written. -/
theorem heapStepFallback_frame (c : Cmd) (h : Heap) (arg : Str) (rest : List Str)
    (events : List OptEvent) (destRef : Nat) (hd : destRef ≠ 0) :
    (hstepHeap (heapStepFallback c h arg rest events destRef)) 0 = h 0
      ∧ hstepDest 1 (heapStepFallback c h arg rest events destRef) ≠ 0 := by
  have hd0 : (0 : Nat) ≠ destRef := Ne.symm hd
  unfold heapStepFallback
  dsimp only
  repeat' split
  all_goals simp [hstepHeap, hstepDest, hpush_out, hd0, hd]

theorem heapStepLong_frame (c : Cmd) (h : Heap) (arg : Str) (rest : List Str)
    (events : List OptEvent) (destRef : Nat) (hd : destRef ≠ 0) :
    (hstepHeap (heapStepLong c h arg rest events destRef)) 0 = h 0
      ∧ hstepDest 1 (heapStepLong c h arg rest events destRef) ≠ 0 := by
  have hfb := heapStepFallback_frame c h arg rest events destRef hd
  unfold heapStepLong
  dsimp only
  repeat' split
  all_goals first
    | exact hfb
    | simp [hstepHeap, hstepDest, hd]

theorem heapStepCombo_frame (c : Cmd) (h : Heap) (arg : Str) (rest : List Str)
    (events : List OptEvent) (destRef : Nat) (hd : destRef ≠ 0) :
    (hstepHeap (heapStepCombo c h arg rest events destRef)) 0 = h 0
      ∧ hstepDest 1 (heapStepCombo c h arg rest events destRef) ≠ 0 := by
  have hlg := heapStepLong_frame c h arg rest events destRef hd
  unfold heapStepCombo
  repeat' split
  all_goals first
    | exact hlg
    | simp [hstepHeap, hstepDest, hd]

theorem heapStepMain_frame (c : Cmd) (h : Heap) (arg : Str) (rest : List Str)
    (events : List OptEvent) (destRef : Nat) (hd : destRef ≠ 0) :
    (hstepHeap (heapStepMain c h arg rest events destRef)) 0 = h 0
      ∧ hstepDest 1 (heapStepMain c h arg rest events destRef) ≠ 0 := by
  have hcb := heapStepCombo_frame c h arg rest events destRef hd
  unfold heapStepMain
  dsimp only
  repeat' split
  all_goals first
    | exact hcb
    | simp [hstepHeap, hstepDest, hd]

theorem parseHeapStep_frame (c : Cmd) (h : Heap) (arg : Str) (rest : List Str)
    (events : List OptEvent) (destRef : Nat) (avo : Option Opt) (hd : destRef ≠ 0) :
    (hstepHeap (parseHeapStep c h arg rest events destRef avo)) 0 = h 0
      ∧ hstepDest 1 (parseHeapStep c h arg rest events destRef avo) ≠ 0 := by
  have hd0 : (0 : Nat) ≠ destRef := Ne.symm hd
  have hmn := heapStepMain_frame c h arg rest events destRef hd
  unfold parseHeapStep
  dsimp only
  repeat' split
  all_goals first
    | exact hmn
    | simp [hstepHeap, hstepDest, hpush_out, hd, hd0]

/-- The loop never writes cell 0 when `dest` starts off it. -/
theorem parseLoopHeap_frame (c : Cmd) :
    ∀ (n : Nat) (h : Heap) (args : List Str) (events : List OptEvent)
      (destRef : Nat) (avo : Option Opt), destRef ≠ 0 →
      (parseLoopHeap c n h args events destRef avo).heap 0 = h 0 := by
  intro n
  induction n with
  | zero =>
    intro h args events destRef avo hd
    cases args <;> rfl
  | succ n ih =>
    intro h args events destRef avo hd
    cases args with
    | nil => rfl
    | cons arg rest =>
      have hframe := parseHeapStep_frame c h arg rest events destRef avo hd
      simp only [parseLoopHeap]
      match hres : parseHeapStep c h arg rest events destRef avo with
      | .done h2 events2 code =>
        rw [hres] at hframe
        exact hframe.1
      | .cont h2 args2 events2 destRef2 avo2 =>
        rw [hres] at hframe
        rw [ih h2 args2 events2 destRef2 avo2 (by simpa [hstepDest] using hframe.2)]
        simpa [hstepHeap] using hframe.1

/-- C10: `parseOptions` works on `argv.slice()` — a copy — so the caller's
`argv` array (heap cell 0) holds the same elements in the same order after
the call, whether the parse finished or threw. -/
theorem C10_parseOptions_argv_unchanged (c : Cmd) (h : Heap) :
    (c.parseOptionsHeap h).heap 0 = h 0 := by
  unfold Cmd.parseOptionsHeap
  dsimp only
  rw [parseLoopHeap_frame c _ _ _ _ _ _ (by decide)]
  simp [hset]

/-! ## Claim C7: the inspector-port rewrite -/

theorem splitOnChar_ne_nil (c : Char) (l : List Char) : splitOnChar c l ≠ [] := by
  cases l with
  | nil => simp [splitOnChar]
  | cons x xs =>
    simp only [splitOnChar]
    rcases splitOnChar c xs with _ | ⟨hd, tl⟩
    · simp
    · dsimp only
      split_ifs <;> simp

theorem splitOnChar_not_mem (c : Char) (l : List Char) (h : c ∉ l) :
    splitOnChar c l = [l] := by
  induction l with
  | nil => rfl
  | cons x xs ih =>
    have hx : x ≠ c := fun he => h (he ▸ List.mem_cons_self x xs)
    have hxs : c ∉ xs := fun hm => h (List.mem_cons_of_mem x hm)
    simp only [splitOnChar, ih hxs]
    rw [if_neg hx]

theorem splitOnChar_append (c : Char) (xs ys : List Char) (h : c ∉ xs) :
    splitOnChar c (xs ++ c :: ys) = xs :: splitOnChar c ys := by
  induction xs with
  | nil =>
    rcases hy : splitOnChar c ys with _ | ⟨hd, tl⟩
    · exact (splitOnChar_ne_nil c ys hy).elim
    · simp [splitOnChar, hy]
  | cons x xs ih =>
    have hx : x ≠ c := fun he => h (he ▸ List.mem_cons_self x xs)
    have hxs : c ∉ xs := fun hm => h (List.mem_cons_of_mem x hm)
    have hih := ih hxs
    rcases hr : splitOnChar c (xs ++ c :: ys) with _ | ⟨hd, tl⟩
    · exact (splitOnChar_ne_nil _ _ hr).elim
    · rw [hr] at hih
      show splitOnChar c ((x :: xs) ++ c :: ys) = (x :: xs) :: splitOnChar c ys
    
      rw [List.cons_append]
      simp only [splitOnChar, hr]
      rw [if_neg hx]
      rw [(List.cons.inj hih).1, (List.cons.inj hih).2]

theorem stripPre_append (p s : Str) : stripPre p (p ++ s) = some s := by
  induction p with
  | nil => rfl
  | cons x xs ih => simp [stripPre, ih]

/-- Two strings differ when one is reachable from a prefix strip and the
other is not. -/
theorem ne_of_stripPre (p x y : Str) (hx : (stripPre p x).isSome = true)
    (hy : stripPre p y = none) : x ≠ y := by
  intro he
  rw [he, hy] at hx
  cases hx

/-- A colon is not a digit, so an all-digit string contains no colon. -/
theorem colon_not_mem_of_digits (port : Str) (h : port.all Char.isDigit = true) :
    ':' ∉ port := by
  intro hm
  have := List.all_eq_true.mp h ':' hm
  cases this

/-- The core of the rewrite for a token of the form `base=tail` once the
anchored prefix tests are settled: the split of `tail` on `:` decides
host/port, and a non-`"0"` port comes back incremented. -/
theorem incArg_assign (base tail : Str)
    (hpre : (stripPre (chars "--inspect") (base ++ '=' :: tail)).isNone = false)
    (hne1 : base ++ '=' :: tail ≠ chars "--inspect")
    (hne2 : base ++ '=' :: tail ≠ chars "--inspect-brk")
    (hia : inspectAssign (base ++ '=' :: tail) = some (base, tail)) :
    incArg (base ++ '=' :: tail) =
      (match splitOnChar ':' tail with
        | [r] =>
          if r.isEmpty then base ++ '=' :: tail
          else if isDigits r then
            (if r ≠ ['0'] then
              base ++ '=' :: (chars "127.0.0.1" ++ ':' :: natToChars (digitsToNat r + 1))
            else base ++ '=' :: tail)
          else base ++ '=' :: (r ++ ':' :: natToChars (digitsToNat (chars "9229") + 1))
        | [h, p] =>
          if !h.isEmpty && isDigits p then
            (if p ≠ ['0'] then base ++ '=' :: (h ++ ':' :: natToChars (digitsToNat p + 1))
            else base ++ '=' :: tail)
          else base ++ '=' :: tail
        | _ => base ++ '=' :: tail) := by
  unfold incArg
  rw [hpre]
  simp only [Bool.false_eq_true, if_false]
  rw [if_neg (fun h => h.elim hne1 hne2)]
  rw [hia]
  dsimp only
  rcases hsp : splitOnChar ':' tail with _ | ⟨r, rtl⟩
  · exact (splitOnChar_ne_nil ':' tail hsp).elim
  · rcases rtl with _ | ⟨p, ptl⟩
    · dsimp only
      by_cases hre : r.isEmpty = true
      · rw [if_pos hre, if_pos hre]
      · rw [if_neg hre, if_neg hre]
        by_cases hrd : isDigits r = true
        · rw [if_pos hrd, if_pos hrd]
        · rw [if_neg hrd, if_neg hrd]
          dsimp only
          rw [if_pos (by decide : chars "9229" ≠ ['0'])]
    · rcases ptl with _ | ⟨d, dtl⟩
      · dsimp only
        by_cases hhp : (!r.isEmpty && isDigits p) = true
        · rw [if_pos hhp, if_pos hhp]
        · rw [if_neg hhp, if_neg hhp]
      · rfl

/-- `incArg_assign` dispatched over the three debug option names: for each
of them the anchored prefix tests of `incArg` resolve definitionally, so the
rewrite of `base=tail` is decided by the split of `tail` on `:`. -/
theorem incArg_assign_mem (base tail : Str)
    (hmem : base ∈ [chars "--inspect", chars "--inspect-brk", chars "--inspect-port"]) :
    incArg (base ++ '=' :: tail) =
      (match splitOnChar ':' tail with
        | [r] =>
          if r.isEmpty then base ++ '=' :: tail
          else if isDigits r then
            (if r ≠ ['0'] then
              base ++ '=' :: (chars "127.0.0.1" ++ ':' :: natToChars (digitsToNat r + 1))
            else base ++ '=' :: tail)
          else base ++ '=' :: (r ++ ':' :: natToChars (digitsToNat (chars "9229") + 1))
        | [h, p] =>
          if !h.isEmpty && isDigits p then
            (if p ≠ ['0'] then base ++ '=' :: (h ++ ':' :: natToChars (digitsToNat p + 1))
            else base ++ '=' :: tail)
          else base ++ '=' :: tail
        | _ => base ++ '=' :: tail) := by
  rcases List.mem_cons.mp hmem with hb | hmem2
  · subst hb
    exact incArg_assign (chars "--inspect") tail rfl
      (ne_of_stripPre (chars "--inspect=") _ _ rfl (by decide))
      (ne_of_stripPre (chars "--inspect=") _ _ rfl (by decide)) rfl
  · rcases List.mem_cons.mp hmem2 with hb | hmem3
    · subst hb
      exact incArg_assign (chars "--inspect-brk") tail rfl
        (ne_of_stripPre (chars "--inspect-brk=") _ _ rfl (by decide))
        (ne_of_stripPre (chars "--inspect-brk=") _ _ rfl (by decide)) rfl
    · rcases List.mem_cons.mp hmem3 with hb | hmem4
      · subst hb
        exact incArg_assign (chars "--inspect-port") tail rfl
          (ne_of_stripPre (chars "--inspect-port=") _ _ rfl (by decide))
          (ne_of_stripPre (chars "--inspect-port=") _ _ rfl (by decide)) rfl
      · cases hmem4

/-- The token shapes the claim names: `--inspect`, `--inspect-brk` or
`--inspect-port`, optionally with `=host`, `=port` or `=host:port`. -/
def c7ClaimTokenMatches (arg : Str) : Bool :=
  decide (arg ∈ [chars "--inspect", chars "--inspect-brk", chars "--inspect-port"]) ||
  ([chars "--inspect", chars "--inspect-brk", chars "--inspect-port"].any (fun base =>
    match stripPre (base ++ ['=']) arg with
    | some rest =>
      (match splitOnChar ':' rest with
        | [r] => !r.isEmpty
        | [h, p] => !h.isEmpty && isDigits p
        | _ => false)
    | none => false))

/-- The claim's assertion at one token: a matching token must come back
with its port incremented; since a bare token shows no port (and its
implied default port 9229 is not `"0"`), the rewritten token must differ
from the input. -/
def c7ClaimHoldsAt (arg : Str) : Bool :=
  !(c7ClaimTokenMatches arg) || decide (incArg arg ≠ arg)

/-- C7 counterexample: the bare token `--inspect-port` matches the claim's
shapes, but the code's first regex is `^(--inspect(-brk)?)$` — it
deliberately excludes a bare `--inspect-port`, which is returned unchanged
instead of gaining an incremented port. -/
theorem C7_counterexample : c7ClaimHoldsAt (chars "--inspect-port") = false := by decide

/-- C7 amended: `--inspect` and `--inspect-brk` (bare or with `=host`,
`=port`, `=host:port`) and `--inspect-port` (only with `=...`) are rewritten
to `option=host:port+1` with host preserved (defaults `127.0.0.1` and
`9229`); a port literally `0` is not rewritten; a bare `--inspect-port` and
every token not starting with `--inspect` are returned unchanged; and
`incrementNodeInspectorPort` maps this rewrite over the argv slice. Each
form is covered by a universally quantified conjunct — `=host:port` with
port incremented, `=host:0` unchanged, `=port` (incremented onto the
default host unless the port is `0`), `=host` (default port incremented) —
followed by the two bare rewritten tokens, the excluded bare
`--inspect-port`, and concrete samples of each family. -/
theorem C7_inspector_port_rewrite :
    (∀ args : List Str, incrementNodeInspectorPort args = args.map incArg)
    ∧ (∀ arg : Str, stripPre (chars "--inspect") arg = none → incArg arg = arg)
    ∧ (∀ base host port : Str,
        base ∈ [chars "--inspect", chars "--inspect-brk", chars "--inspect-port"] →
        host ≠ [] → ':' ∉ host → port.all Char.isDigit = true → port ≠ [] → port ≠ ['0'] →
        incArg (base ++ '=' :: (host ++ ':' :: port)) =
          base ++ '=' :: (host ++ ':' :: natToChars (digitsToNat port + 1)))
    ∧ (∀ base host : Str,
        base ∈ [chars "--inspect", chars "--inspect-brk", chars "--inspect-port"] →
        host ≠ [] → ':' ∉ host →
        incArg (base ++ '=' :: (host ++ ':' :: ['0'])) = base ++ '=' :: (host ++ ':' :: ['0']))
    ∧ (∀ base port : Str,
        base ∈ [chars "--inspect", chars "--inspect-brk", chars "--inspect-port"] →
        isDigits port = true →
        incArg (base ++ '=' :: port) =
          if port ≠ ['0'] then
            base ++ '=' :: (chars "127.0.0.1" ++ ':' :: natToChars (digitsToNat port + 1))
          else base ++ '=' :: port)
    ∧ (∀ base host : Str,
        base ∈ [chars "--inspect", chars "--inspect-brk", chars "--inspect-port"] →
        host ≠ [] → ':' ∉ host → isDigits host = false →
        incArg (base ++ '=' :: host) =
          base ++ '=' :: (host ++ ':' :: natToChars (digitsToNat (chars "9229") + 1)))
    ∧ incArg (chars "--inspect") = chars "--inspect=127.0.0.1:9230"
    ∧ incArg (chars "--inspect-brk") = chars "--inspect-brk=127.0.0.1:9230"
    ∧ incArg (chars "--inspect-port") = chars "--inspect-port"
    ∧ incArg (chars "--inspect=1234") = chars "--inspect=127.0.0.1:1235"
    ∧ incArg (chars "--inspect-port=localhost") = chars "--inspect-port=localhost:9230"
    ∧ incArg (chars "--inspect=127.0.0.1:0") = chars "--inspect=127.0.0.1:0" := by
  refine ⟨fun args => rfl, ?_, ?_, ?_, ?_, ?_, by decide, by decide, by decide, by decide,
    by decide, by decide⟩
  · intro arg hnone
    unfold incArg
    rw [hnone]
    rfl
  · intro base host port hmem hhost hcolon hdig hpne hp0
    have hcp : ':' ∉ port := colon_not_mem_of_digits port hdig
    have hsplit : splitOnChar ':' (host ++ ':' :: port) = [host, port] := by
      rw [splitOnChar_append ':' host port hcolon, splitOnChar_not_mem ':' port hcp]
    have hcond : (!host.isEmpty && isDigits port) = true := by
      simp [isDigits, hdig, hpne, hhost]
    rw [incArg_assign_mem base (host ++ ':' :: port) hmem]
    rw [hsplit]
    dsimp only
    rw [if_pos hcond, if_pos hp0]
  · intro base host hmem hhost hcolon
    have hsplit : splitOnChar ':' (host ++ ':' :: ['0']) = [host, ['0']] := by
      rw [splitOnChar_append ':' host ['0'] hcolon]
      rw [splitOnChar_not_mem ':' ['0'] (by decide)]
    have hhe : host.isEmpty = false := by
      cases h : host.isEmpty
      · rfl
      · exact absurd (List.isEmpty_iff.mp h) hhost
    have hcond : (!host.isEmpty && isDigits ['0']) = true := by rw [hhe]; decide
    rw [incArg_assign_mem base (host ++ ':' :: ['0']) hmem]
    rw [hsplit]
    dsimp only
    rw [if_pos hcond]
    rw [if_neg (by decide : ¬(['0'] ≠ ['0']))]
  · intro base port hmem hdig
    have hd := hdig
    unfold isDigits at hd
    rw [Bool.and_eq_true] at hd
    obtain ⟨hne0, hall⟩ := hd
    rw [Bool.not_eq_true'] at hne0
    have hcp : ':' ∉ port := colon_not_mem_of_digits port hall
    rw [incArg_assign_mem base port hmem]
    rw [splitOnChar_not_mem ':' port hcp]
    dsimp only
    rw [if_neg (by simp [hne0]), if_pos hdig]
  · intro base host hmem hhost hcolon hnod
    have hhe : ¬(host.isEmpty = true) := fun h => hhost (List.isEmpty_iff.mp h)
    rw [incArg_assign_mem base host hmem]
    rw [splitOnChar_not_mem ':' host hcolon]
    dsimp only
    rw [if_neg hhe]
    rw [if_neg (by simp [hnod])]

end Mantou
